import Mathlib

/-!
Verification of the cache-aside consistency protocol of a product-record
service (FastAPI + SQLAlchemy durable store + Redis cache).

Shallow embedding notes:
* A `Product` record carries the five persisted columns; the response schema
  `ProductResponse` has the same five fields and `model_validate` is a field
  copy, so one structure serves both (`abbrev ProductResponse := Product`).
  `price` (a Python float used only as an opaque value, never computed with)
  is modelled as `Rat`; `stock_quantity` (SQL Integer) as `Int`.
* The durable store is a list of rows keyed by the `id` field (the primary
  key); SQLAlchemy `db.get` is `List.find?` on the id.
* The Redis cache is a list of `(key, value, expiresAt)` entries; the stored
  string value is modelled as a JSON syntax tree (`Json`), with
  `model_dump_json` / `ProductResponse(**json.loads …)` as total functions
  to/from that tree.  A malformed entry is any tree the validator rejects.
* Cache-store faults are injected through a `healthy : Bool` flag on every
  cache call: `false` means the underlying client raises, which the service
  catches and downgrades to miss / no-op, exactly as the `try/except` blocks
  in `cache_service.py` do.
* Each endpoint returns its HTTP-level result, the new state, and the trace
  of store/cache calls it performed, in program order; the Python source is
  straight-line code, so the trace is the statement order of the source.
-/

/-- A product row / response: id, name, description, price, stock_quantity
(`src/models/product.py`, `src/schemas/product.py`). -/
structure Product where
  id : String
  name : String
  description : String
  price : Rat
  stock_quantity : Int
deriving DecidableEq, Repr

/-- `ProductResponse` has the same five fields as the row and
`model_validate` copies them, so the two coincide in the model. -/
abbrev ProductResponse := Product

/-- Payload of POST /products (`ProductCreate`): the four non-id fields,
already past transport validation. -/
structure ProductCreate where
  name : String
  description : String
  price : Rat
  stock_quantity : Int
deriving DecidableEq, Repr

/-- One pydantic field of the partial-update payload: `unset` when the key
was absent from the request body, `set v` when present (where `v = none`
models an explicit JSON null — the schema types every field `T | None`). -/
inductive UpdateField (α : Type) where
  | unset : UpdateField α
  | set (v : Option α) : UpdateField α
deriving DecidableEq, Repr

/-- Payload of PUT /products (`ProductUpdate`): every updatable field
optionally present (`src/schemas/product.py`). -/
structure ProductUpdate where
  name : UpdateField String
  description : UpdateField String
  price : UpdateField Rat
  stock_quantity : UpdateField Int
deriving DecidableEq, Repr

/-- Whether one pydantic field would appear in
`model_dump(exclude_unset=True)`. -/
def UpdateField.isSet {α : Type} : UpdateField α → Bool
  | .unset => false
  | .set _ => true

/-- `payload.model_dump(exclude_unset=True)` is non-empty: at least one
field was present in the request body (explicit nulls count). -/
def ProductUpdate.hasSetField (u : ProductUpdate) : Bool :=
  u.name.isSet || u.description.isSet || u.price.isSet || u.stock_quantity.isSet

/-! ## JSON values (the serialized cache payload) -/

/-- JSON syntax tree standing in for the string stored in Redis. -/
inductive Json where
  | jstr (s : String)
  | jnum (q : Rat)
  | jnull
  | jobj (fields : List (String × Json))

/-- Field lookup in a JSON object (first match, as `dict` keys are unique
in serialized output). -/
def jsonField (fields : List (String × Json)) (k : String) : Option Json :=
  (fields.find? (fun f => f.1 = k)).map (fun f => f.2)

/-- Read a JSON value as a string (pydantic `str` field validation). -/
def Json.asStr : Json → Option String
  | .jstr s => some s
  | _ => none

/-- Read a JSON value as a number (pydantic `float` field validation). -/
def Json.asNum : Json → Option Rat
  | .jnum q => some q
  | _ => none

/-- Read a JSON value as an integer (pydantic `int` field accepts an
integral number). -/
def Json.asInt : Json → Option Int
  | .jnum q => if q.den = 1 then some q.num else none
  | _ => none

/-- `product.model_dump_json()`: serialize the five fields
(`cache_service.py`, `set_product_in_cache`). -/
def model_dump_json (p : ProductResponse) : Json :=
  .jobj [("id", .jstr p.id), ("name", .jstr p.name),
         ("description", .jstr p.description), ("price", .jnum p.price),
         ("stock_quantity", .jnum (p.stock_quantity : Rat))]

/-- `ProductResponse(**json.loads(cached_json))`: validate a JSON object
into a response; `none` models the pydantic/`json.loads` exception path
(`cache_service.py`, `get_product_from_cache`). -/
def productResponseOfJson : Json → Option ProductResponse
  | .jobj fs => do
      let id ← (← jsonField fs "id").asStr
      let name ← (← jsonField fs "name").asStr
      let description ← (← jsonField fs "description").asStr
      let price ← (← jsonField fs "price").asNum
      let stock ← (← jsonField fs "stock_quantity").asInt
      pure ⟨id, name, description, price, stock⟩
  | _ => none

/-! ## Redis client model -/

/-- The Redis keyspace: entries `(key, value, expiresAt)`; an entry is
visible to GET only before its expiry instant. -/
abbrev Cache := List (String × Json × Nat)

/-- `redis.get(key)` at time `now`: the live value under `key`, if any. -/
def redisGet (c : Cache) (now : Nat) (k : String) : Option Json :=
  (c.find? (fun e => e.1 = k)).bind
    (fun e => if now < e.2.2 then some e.2.1 else none)

/-- `redis.set(key, value, ex=ttl)` at time `now`: overwrite `key`, expiry
`now + ttl`. -/
def redisSet (c : Cache) (now : Nat) (k : String) (v : Json) (ttl : Nat) :
    Cache :=
  (k, v, now + ttl) :: c.filter (fun e => e.1 ≠ k)

/-- `redis.delete(key)`: drop any entry under `key`. -/
def redisDel (c : Cache) (k : String) : Cache :=
  c.filter (fun e => e.1 ≠ k)

/-! ## Cache Layer (`src/services/cache_service.py`, `ProductCacheService`)

Every method takes `healthy : Bool`: `false` means every call on the
underlying Redis client raises, and the method's `except` branch runs. -/

/-- `ProductCacheService._cache_key`. -/
def cache_key (product_id : String) : String :=
  "product:" ++ product_id

/-- `ProductCacheService.get_product_from_cache`: GET, then `json.loads`
and validate; any client error, missing key, or malformed entry yields
`none`. -/
def get_product_from_cache (healthy : Bool) (c : Cache) (now : Nat)
    (product_id : String) : Option ProductResponse :=
  if healthy then
    (redisGet c now (cache_key product_id)).bind productResponseOfJson
  else
    none

/-- `ProductCacheService.set_product_in_cache`: SET with the configured
TTL; on client error the write is dropped. -/
def set_product_in_cache (healthy : Bool) (c : Cache) (now ttl : Nat)
    (product : ProductResponse) : Cache :=
  if healthy then
    redisSet c now (cache_key product.id) (model_dump_json product) ttl
  else
    c

/-- `ProductCacheService.invalidate_product_cache`: DELETE; on client
error the deletion is a no-op. -/
def invalidate_product_cache (healthy : Bool) (c : Cache)
    (product_id : String) : Cache :=
  if healthy then redisDel c (cache_key product_id) else c

/-! ## Durable store and repository
(`src/services/product_repository.py`) -/

/-- The products table: rows keyed by their `id` column. -/
abbrev Db := List Product

/-- `get_product_by_id` / `db.get(Product, product_id)`. -/
def get_product_by_id (db : Db) (product_id : String) : Option Product :=
  db.find? (fun p => p.id = product_id)

/-- `create_product`: build the row from the payload under a caller-chosen
fresh identifier and commit; `none` is the primary-key-conflict
`IntegrityError` on commit. -/
def create_product (db : Db) (newId : String) (payload : ProductCreate) :
    Option (Product × Db) :=
  if (get_product_by_id db newId).isSome then none
  else
    let p : Product := ⟨newId, payload.name, payload.description,
                        payload.price, payload.stock_quantity⟩
    some (p, p :: db)

/-- The row as it stands after the `setattr` loop of `update_product`,
before commit: each data column may have been assigned `None`. -/
structure Row where
  id : String
  name : Option String
  description : Option String
  price : Option Rat
  stock_quantity : Option Int
deriving DecidableEq, Repr

/-- One `setattr(product, field_name, value)` step: fields absent from
`model_dump(exclude_unset=True)` keep the old column value. -/
def applyField {α : Type} : UpdateField α → Option α → Option α
  | .unset, old => old
  | .set v, _ => v

/-- The `setattr` loop of `update_product`: merge the set fields of the
payload over the existing row. -/
def update_product_row (p : Product) (u : ProductUpdate) : Row :=
  ⟨p.id,
   applyField u.name (some p.name),
   applyField u.description (some p.description),
   applyField u.price (some p.price),
   applyField u.stock_quantity (some p.stock_quantity)⟩

/-- `db.commit()` of the merged row: every column is `nullable=False`, so
the commit succeeds exactly when no column was assigned null. -/
def Row.commit : Row → Option Product
  | ⟨i, some n, some d, some pr, some s⟩ => some ⟨i, n, d, pr, s⟩
  | _ => none

/-- Replace the row with identifier `i` by `q` (the in-place mutation
committed by `update_product`). -/
def dbReplace (db : Db) (i : String) (q : Product) : Db :=
  db.map (fun r => if r.id = i then q else r)

/-- `update_product`: apply the set fields over the fetched row, commit;
`none` is the constraint-violation `IntegrityError` on commit. -/
def update_product (db : Db) (p : Product) (u : ProductUpdate) :
    Option (Product × Db) :=
  (update_product_row p u).commit.map (fun q => (q, dbReplace db p.id q))

/-- `delete_product`: delete the row and commit. -/
def delete_product (db : Db) (p : Product) : Db :=
  db.filter (fun r => r.id ≠ p.id)

/-! ## Record Service endpoints (`src/api/products.py`) -/

/-- HTTP-level outcome of one endpoint call. -/
inductive ApiResult where
  | ok (p : ProductResponse)
  | noContent
  | notFound
  | badRequest
  | serverError
deriving DecidableEq, Repr

/-- Full service state: products table plus Redis keyspace. -/
structure St where
  store : Db
  cache : Cache

/-- One store/cache call performed by an endpoint, for stating ordering
and non-consultation properties. -/
inductive Event where
  | cacheGet (key : String)
  | cacheSet (key : String)
  | cacheDel (key : String)
  | dbGet (id : String)
  | dbInsert (id : String)
  | dbCommit (id : String)
  | dbDelete (id : String)
deriving DecidableEq, Repr

/-- `create_product_endpoint`: persist a fresh record, then invalidate its
cache key, return the persisted record. -/
def create_product_endpoint (healthy : Bool) (st : St) (newId : String)
    (payload : ProductCreate) : ApiResult × St × List Event :=
  match create_product st.store newId payload with
  | none => (.serverError, st, [.dbInsert newId])
  | some (p, db') =>
      (.ok p, ⟨db', invalidate_product_cache healthy st.cache p.id⟩,
       [.dbInsert newId, .cacheDel (cache_key p.id)])

/-- `get_product_endpoint`: cache lookup first; on hit return it; on miss
read the store, 404 if absent, else populate the cache and return. -/
def get_product_endpoint (healthy : Bool) (ttl : Nat) (now : Nat) (st : St)
    (product_id : String) : ApiResult × St × List Event :=
  match get_product_from_cache healthy st.cache now product_id with
  | some cached => (.ok cached, st, [.cacheGet (cache_key product_id)])
  | none =>
      match get_product_by_id st.store product_id with
      | none =>
          (.notFound, st,
           [.cacheGet (cache_key product_id), .dbGet product_id])
      | some p =>
          (.ok p,
           ⟨st.store, set_product_in_cache healthy st.cache now ttl p⟩,
           [.cacheGet (cache_key product_id), .dbGet product_id,
            .cacheSet (cache_key p.id)])

/-- `update_product_endpoint`: 400 on empty payload, 404 if absent, else
merge + commit, then invalidate, return the updated record.  A failed
commit raises before the invalidation line runs. -/
def update_product_endpoint (healthy : Bool) (st : St) (product_id : String)
    (payload : ProductUpdate) : ApiResult × St × List Event :=
  if payload.hasSetField = false then (.badRequest, st, [])
  else
    match get_product_by_id st.store product_id with
    | none => (.notFound, st, [.dbGet product_id])
    | some p =>
        match update_product st.store p payload with
        | none => (.serverError, st, [.dbGet product_id, .dbCommit product_id])
        | some (q, db') =>
            (.ok q, ⟨db', invalidate_product_cache healthy st.cache product_id⟩,
             [.dbGet product_id, .dbCommit product_id,
              .cacheDel (cache_key product_id)])

/-- `delete_product_endpoint`: 404 if absent, else delete from the store,
then invalidate, 204. -/
def delete_product_endpoint (healthy : Bool) (st : St) (product_id : String) :
    ApiResult × St × List Event :=
  match get_product_by_id st.store product_id with
  | none => (.notFound, st, [.dbGet product_id])
  | some p =>
      (.noContent,
       ⟨delete_product st.store p, invalidate_product_cache healthy st.cache product_id⟩,
       [.dbGet product_id, .dbDelete product_id, .cacheDel (cache_key product_id)])

/-! ## Operation sequences (for the cache-transparency property) -/

/-- One inbound operation, tagged with the instant it runs (the clock only
feeds TTL bookkeeping). -/
inductive Op where
  | create (newId : String) (payload : ProductCreate)
  | read (product_id : String)
  | update (product_id : String) (payload : ProductUpdate)
  | delete (product_id : String)
deriving DecidableEq, Repr

/-- Dispatch one operation to its endpoint. -/
def stepOp (healthy : Bool) (ttl : Nat) (st : St) (now : Nat) (op : Op) :
    ApiResult × St × List Event :=
  match op with
  | .create newId payload => create_product_endpoint healthy st newId payload
  | .read product_id => get_product_endpoint healthy ttl now st product_id
  | .update product_id payload =>
      update_product_endpoint healthy st product_id payload
  | .delete product_id => delete_product_endpoint healthy st product_id

/-- Run a timed operation sequence, collecting each operation's outcome. -/
def runOps (healthy : Bool) (ttl : Nat) (st : St) :
    List (Nat × Op) → List ApiResult × St
  | [] => ([], st)
  | (now, op) :: rest =>
      let r := stepOp healthy ttl st now op
      let rec' := runOps healthy ttl r.2.1 rest
      (r.1 :: rec'.1, rec'.2)

/-- Protocol invariant of a healthy run: every deserializable cache entry
sits under its record's derived key and agrees with the durable store
(the cache is only ever populated from persisted data). -/
def CacheCoherent (db : Db) (c : Cache) : Prop :=
  ∀ k j e, (k, j, e) ∈ c → ∀ p, productResponseOfJson j = some p →
    k = cache_key p.id ∧ get_product_by_id db p.id = some p

/-- Sample record used by the concrete witnesses. -/
def pA : Product := ⟨"a", "X", "widget", 10, 5⟩

/-- Sample record used by the concrete witnesses. -/
def pB : Product := ⟨"b", "Y", "gadget", 12, 7⟩

/-! ## Helper lemmas -/

/-- The key derivation is injective: distinct identifiers map to distinct
cache keys. -/
theorem cache_key_inj {a b : String} (h : cache_key a = cache_key b) :
    a = b := by
  have hd := congrArg String.data h
  simp [cache_key, String.data_append] at hd
  exact String.ext hd

/-- Serialization round-trip: the validator accepts exactly what
`model_dump_json` wrote and rebuilds the same record. -/
theorem productResponseOfJson_model_dump_json (p : ProductResponse) :
    productResponseOfJson (model_dump_json p) = some p := by
  simp [productResponseOfJson, model_dump_json, jsonField, Json.asStr,
        Json.asNum, Json.asInt, List.find?]

/-- Searching for key `k` after filtering out every entry with key `k`
finds nothing. -/
theorem find?_filter_self (c : Cache) (k : String) :
    (c.filter (fun e => e.1 ≠ k)).find? (fun e => e.1 = k) = none := by
  rw [List.find?_eq_none]
  intro e he
  have := List.of_mem_filter he
  simpa using this

/-- Filtering out the entries with key `k` does not change the search for
a different key. -/
theorem find?_filter_ne (c : Cache) {k k' : String} (h : k' ≠ k) :
    (c.filter (fun e => e.1 ≠ k)).find? (fun e => e.1 = k')
      = c.find? (fun e => e.1 = k') := by
  induction c with
  | nil => rfl
  | cons e rest ih =>
      by_cases he : e.1 = k
      · have hne : e.1 ≠ k' := fun hk => h (hk.symm.trans he)
        rw [List.filter_cons_of_neg (by simpa using he),
            List.find?_cons_of_neg _ (by simpa using hne), ih]
      · by_cases he' : e.1 = k'
        · rw [List.filter_cons_of_pos (by simpa using he),
              List.find?_cons_of_pos _ (by simpa using he'),
              List.find?_cons_of_pos _ (by simpa using he')]
        · rw [List.filter_cons_of_pos (by simpa using he),
              List.find?_cons_of_neg _ (by simpa using he'),
              List.find?_cons_of_neg _ (by simpa using he'), ih]

/-- After a DELETE of `k`, a GET of `k` misses. -/
theorem redisGet_redisDel_self (c : Cache) (now : Nat) (k : String) :
    redisGet (redisDel c k) now k = none := by
  unfold redisGet redisDel
  rw [find?_filter_self]
  rfl

/-- A GET of a key other than the one just DELETEd is unchanged. -/
theorem redisGet_redisDel_other (c : Cache) (now : Nat) {k k' : String}
    (h : k' ≠ k) : redisGet (redisDel c k) now k' = redisGet c now k' := by
  unfold redisGet redisDel
  rw [find?_filter_ne c h]

/-- Searching the table for id `i` after deleting every row with id `i`
finds nothing. -/
theorem get_product_by_id_filter_self (db : Db) (i : String) :
    get_product_by_id (db.filter (fun r => r.id ≠ i)) i = none := by
  rw [get_product_by_id, List.find?_eq_none]
  intro r hr
  have := List.of_mem_filter hr
  simpa using this

/-- Deleting the rows with id `i` does not change the search for a
different id. -/
theorem get_product_by_id_filter_ne (db : Db) {i x : String} (h : x ≠ i) :
    get_product_by_id (db.filter (fun r => r.id ≠ i)) x
      = get_product_by_id db x := by
  unfold get_product_by_id
  induction db with
  | nil => rfl
  | cons r rest ih =>
      by_cases hr : r.id = i
      · have hne : r.id ≠ x := fun hk => h (hk.symm.trans hr)
        rw [List.filter_cons_of_neg (by simpa using hr),
            List.find?_cons_of_neg _ (by simpa using hne), ih]
      · by_cases hr' : r.id = x
        · rw [List.filter_cons_of_pos (by simpa using hr),
              List.find?_cons_of_pos _ (by simpa using hr'),
              List.find?_cons_of_pos _ (by simpa using hr')]
        · rw [List.filter_cons_of_pos (by simpa using hr),
              List.find?_cons_of_neg _ (by simpa using hr'),
              List.find?_cons_of_neg _ (by simpa using hr'), ih]

/-- If id `i` is present, then after replacing the row at `i` by `q`
(where `q.id = i`), the search for `i` finds `q`. -/
theorem get_product_by_id_dbReplace_self (db : Db) (i : String)
    (q : Product) (hq : q.id = i) :
    (get_product_by_id db i).isSome →
    get_product_by_id (dbReplace db i q) i = some q := by
  unfold get_product_by_id dbReplace
  induction db with
  | nil =>
      intro hp
      simp [List.find?] at hp
  | cons r rest ih =>
      intro hp
      by_cases hr : r.id = i
      · rw [List.map_cons, if_pos hr, List.find?_cons_of_pos _ (by simpa using hq)]
      · rw [List.find?_cons_of_neg _ (by simpa using hr)] at hp
        rw [List.map_cons, if_neg hr,
            List.find?_cons_of_neg _ (by simpa using hr), ih hp]

/-- Replacing the row at `i` by `q` (where `q.id = i`) does not change the
search for a different id. -/
theorem get_product_by_id_dbReplace_ne (db : Db) (i : String) (q : Product)
    (hq : q.id = i) {x : String} (h : x ≠ i) :
    get_product_by_id (dbReplace db i q) x = get_product_by_id db x := by
  unfold get_product_by_id dbReplace
  induction db with
  | nil => rfl
  | cons r rest ih =>
      by_cases hr : r.id = i
      · have h1 : q.id ≠ x := fun hk => h (hk.symm.trans hq)
        have h2 : r.id ≠ x := fun hk => h (hk.symm.trans hr)
        rw [List.map_cons, if_pos hr,
            List.find?_cons_of_neg _ (by simpa using h1),
            List.find?_cons_of_neg _ (by simpa using h2), ih]
      · by_cases hr' : r.id = x
        · rw [List.map_cons, if_neg hr,
              List.find?_cons_of_pos _ (by simpa using hr'),
              List.find?_cons_of_pos _ (by simpa using hr')]
        · rw [List.map_cons, if_neg hr,
              List.find?_cons_of_neg _ (by simpa using hr'),
              List.find?_cons_of_neg _ (by simpa using hr'), ih]

/-! ## Claims -/

/-- C9: on a healthy cache store, storing a record and then looking up its
identifier within the TTL returns the same record field for field — both
calls derive the key through `cache_key`, and the JSON written by
`model_dump_json` round-trips through the deserialization
`productResponseOfJson` used by lookup. -/
theorem cache_store_lookup_roundtrip (c : Cache) (p : ProductResponse)
    (now now' ttl : Nat) (h : now' < now + ttl) :
    get_product_from_cache true (set_product_in_cache true c now ttl p) now'
      p.id = some p := by
  simp [get_product_from_cache, set_product_in_cache, redisGet, redisSet,
        List.find?_cons, h, productResponseOfJson_model_dump_json]

/-- Witness for C9: a concrete record stored into an empty cache at time 0
with TTL 3600 is looked up at time 0. -/
theorem cache_store_lookup_roundtrip_witness :
    (0 : Nat) < 0 + 3600
    ∧ get_product_from_cache true (set_product_in_cache true [] 0 3600 pA) 0
        pA.id = some pA :=
  ⟨by decide, cache_store_lookup_roundtrip [] pA 0 0 3600 (by decide)⟩

/-- C4: the Cache Layer is total toward its caller. With an erroring cache
store, lookup returns `none`, store/invalidate leave the keyspace exactly
as it was (silent drop / no-op); with a healthy store, a missing or expired
key and a malformed entry both come back as `none`. No failure escapes the
layer. -/
theorem cache_layer_absorbs_failures (c : Cache) (p : ProductResponse)
    (product_id : String) (now ttl : Nat) :
    get_product_from_cache false c now product_id = none
    ∧ set_product_in_cache false c now ttl p = c
    ∧ invalidate_product_cache false c product_id = c
    ∧ (redisGet c now (cache_key product_id) = none →
        get_product_from_cache true c now product_id = none)
    ∧ (∀ j, redisGet c now (cache_key product_id) = some j →
        productResponseOfJson j = none →
        get_product_from_cache true c now product_id = none) := by
  refine ⟨rfl, rfl, rfl, ?_, ?_⟩
  · intro h
    simp [get_product_from_cache, h]
  · intro j hj hm
    simp [get_product_from_cache, hj, hm]

/-- Witness for C4: erroring store on a concrete cache; healthy store with
a missing key and with a malformed (`null`) entry. -/
theorem cache_layer_absorbs_failures_witness :
    get_product_from_cache false [] 0 "a" = none
    ∧ set_product_in_cache false [] 0 3600 pA = []
    ∧ invalidate_product_cache false [] "a" = []
    ∧ get_product_from_cache true [] 0 "a" = none
    ∧ get_product_from_cache true [(cache_key "a", Json.jnull, 9)] 0 "a"
        = none := by
  obtain ⟨h1, h2, h3, h4, -⟩ := cache_layer_absorbs_failures [] pA "a" 0 3600
  obtain ⟨-, -, -, -, h5⟩ :=
    cache_layer_absorbs_failures [(cache_key "a", Json.jnull, 9)] pA "a" 0 3600
  refine ⟨h1, h2, h3, h4 rfl, h5 Json.jnull ?_ rfl⟩
  simp [redisGet]

/-- C6: an update whose payload contains zero fields fails with 400 Bad
Request before touching anything: the state comes back unchanged and the
event trace is empty (no store read/write, no cache call), for every store
and cache content. -/
theorem update_empty_payload_rejected (healthy : Bool) (st : St)
    (product_id : String) (u : ProductUpdate) (h : u.hasSetField = false) :
    update_product_endpoint healthy st product_id u
      = (.badRequest, st, []) := by
  simp [update_product_endpoint, h]

/-- Witness for C6: the all-unset payload against a one-row store. -/
theorem update_empty_payload_rejected_witness :
    update_product_endpoint true ⟨[pA], []⟩ "a"
        ⟨.unset, .unset, .unset, .unset⟩
      = (.badRequest, ⟨[pA], []⟩, []) :=
  update_empty_payload_rejected true ⟨[pA], []⟩ "a" _ rfl

/-- C1: Read consults the cache first. On a hit the cached record is
returned with state unchanged and no store access (the event trace is the
single cache GET, and the result is the same for every store content). On
a miss with no durable record the read fails 404 and the state — cache
included — is unchanged. On a miss with a durable record, that record is
written into the cache and returned. -/
theorem read_cache_aside_protocol (healthy : Bool) (ttl now : Nat) (st : St)
    (product_id : String) :
    (∀ p, get_product_from_cache healthy st.cache now product_id = some p →
      get_product_endpoint healthy ttl now st product_id
          = (.ok p, st, [.cacheGet (cache_key product_id)])
        ∧ ∀ db', get_product_endpoint healthy ttl now ⟨db', st.cache⟩ product_id
            = (.ok p, ⟨db', st.cache⟩, [.cacheGet (cache_key product_id)]))
    ∧ (get_product_from_cache healthy st.cache now product_id = none →
        get_product_by_id st.store product_id = none →
        get_product_endpoint healthy ttl now st product_id
          = (.notFound, st,
             [.cacheGet (cache_key product_id), .dbGet product_id]))
    ∧ (∀ p, get_product_from_cache healthy st.cache now product_id = none →
        get_product_by_id st.store product_id = some p →
        get_product_endpoint healthy ttl now st product_id
          = (.ok p, ⟨st.store, set_product_in_cache healthy st.cache now ttl p⟩,
             [.cacheGet (cache_key product_id), .dbGet product_id,
              .cacheSet (cache_key p.id)])) := by
  refine ⟨?_, ?_, ?_⟩
  · intro p hp
    constructor
    · simp [get_product_endpoint, hp]
    · intro db'
      simp [get_product_endpoint, hp]
  · intro hc hs
    simp [get_product_endpoint, hc, hs]
  · intro p hc hs
    simp [get_product_endpoint, hc, hs]

/-- Witness for C1, hit case: a cache holding the serialization of a
concrete record under its derived key, read back at time 1. -/
theorem read_cache_aside_protocol_witness :
    get_product_endpoint true 3600 1
        ⟨[], [(cache_key "a", model_dump_json pA, 3600)]⟩ "a"
      = (.ok pA, ⟨[], [(cache_key "a", model_dump_json pA, 3600)]⟩,
         [.cacheGet (cache_key "a")]) := by
  have hp : get_product_from_cache true
      [(cache_key "a", model_dump_json pA, 3600)] 1 "a" = some pA := by
    simp [get_product_from_cache, redisGet, List.find?_cons, cache_key,
          productResponseOfJson_model_dump_json, pA]
  exact ((read_cache_aside_protocol true 3600 1
      ⟨[], [(cache_key "a", model_dump_json pA, 3600)]⟩ "a").1 pA hp).1

/-- A cache hit under a coherent cache returns exactly the durable record
for the identifier looked up. -/
theorem coherent_lookup_some {db : Db} {c : Cache}
    (hco : CacheCoherent db c) {now : Nat} {i : String} {p : Product}
    (hc : get_product_from_cache true c now i = some p) :
    get_product_by_id db i = some p ∧ p.id = i := by
  unfold get_product_from_cache redisGet at hc
  rw [if_pos rfl] at hc
  cases hfind : c.find? (fun e => e.1 = cache_key i) with
  | none => rw [hfind] at hc; cases hc
  | some ent =>
      rw [hfind] at hc
      have hk : ent.1 = cache_key i := by
        have := List.find?_some hfind
        simpa using this
      have hmem : ent ∈ c := List.mem_of_find?_eq_some hfind
      by_cases ht : now < ent.2.2
      · rw [Option.bind] at hc
        simp only [ht, if_pos] at hc
        have hm : productResponseOfJson ent.2.1 = some p := hc
        obtain ⟨hk2, hdb⟩ := hco ent.1 ent.2.1 ent.2.2 hmem p hm
        have hpid : p.id = i := cache_key_inj (hk2.symm.trans hk)
        exact ⟨hpid ▸ hdb, hpid⟩
      · simp only [ht, if_neg, Option.bind] at hc
        simp at hc

/-- The empty cache is coherent with every store. -/
theorem coherent_nil (db : Db) : CacheCoherent db [] := by
  intro k j e hmem
  cases hmem

/-- Invalidation (under either cache health) preserves coherence: it only
removes entries. -/
theorem coherent_invalidate {db : Db} {c : Cache} (hco : CacheCoherent db c)
    (healthy : Bool) (i : String) :
    CacheCoherent db (invalidate_product_cache healthy c i) := by
  intro k j e hmem p hm
  cases healthy with
  | false => exact hco k j e hmem p hm
  | true =>
      exact hco k j e (List.mem_of_mem_filter hmem) p hm

/-- Populating the cache with a record read from the durable store
preserves coherence. -/
theorem coherent_set {db : Db} {c : Cache} (hco : CacheCoherent db c)
    (healthy : Bool) {i : String} {p : Product} (now ttl : Nat)
    (hp : get_product_by_id db i = some p) :
    CacheCoherent db (set_product_in_cache healthy c now ttl p) := by
  intro k j e hmem q hm
  cases healthy with
  | false => exact hco k j e hmem q hm
  | true =>
      unfold set_product_in_cache redisSet at hmem
      rw [if_pos rfl] at hmem
      rcases List.mem_cons.mp hmem with hhd | htl
      · have hk : k = cache_key p.id := (Prod.mk.injEq ..).mp hhd |>.1
        have hj : j = model_dump_json p := by
          have := (Prod.mk.injEq ..).mp hhd |>.2
          exact ((Prod.mk.injEq ..).mp this).1
        rw [hj, productResponseOfJson_model_dump_json] at hm
        cases hm
        have hpid : p.id = i := by
          have := List.find?_some hp
          simpa using this
        exact ⟨hk, hpid ▸ hp⟩
      · exact hco k j e (List.mem_of_mem_filter htl) q hm

/-- Inserting a row at a fresh identifier preserves coherence. -/
theorem coherent_db_cons {db : Db} {c : Cache} (hco : CacheCoherent db c)
    {p : Product} (hnew : get_product_by_id db p.id = none) :
    CacheCoherent (p :: db) c := by
  intro k j e hmem q hm
  obtain ⟨hk, hdb⟩ := hco k j e hmem q hm
  refine ⟨hk, ?_⟩
  have hne : p.id ≠ q.id := by
    intro h
    rw [get_product_by_id, h] at hnew
    rw [get_product_by_id] at hdb
    rw [hnew] at hdb
    cases hdb
  unfold get_product_by_id at hdb ⊢
  rw [List.find?_cons_of_neg _ (by simpa using hne), hdb]

/-- Replacing the row at `i` and invalidating the cache entry for `i`
preserves coherence. -/
theorem coherent_update {db : Db} {c : Cache} (hco : CacheCoherent db c)
    {i : String} {q : Product} (hq : q.id = i) :
    CacheCoherent (dbReplace db i q)
      (invalidate_product_cache true c i) := by
  intro k j e hmem r hm
  unfold invalidate_product_cache redisDel at hmem
  rw [if_pos rfl] at hmem
  have hkne : k ≠ cache_key i := by
    have := List.of_mem_filter hmem
    simpa using this
  obtain ⟨hk, hdb⟩ := hco k j e (List.mem_of_mem_filter hmem) r hm
  have hrne : r.id ≠ i := fun h => hkne (hk.trans (by rw [h]))
  exact ⟨hk, (get_product_by_id_dbReplace_ne db i q hq hrne).trans hdb⟩

/-- Deleting the row at `i` and invalidating the cache entry for `i`
preserves coherence. -/
theorem coherent_delete {db : Db} {c : Cache} (hco : CacheCoherent db c)
    (i : String) :
    CacheCoherent (db.filter (fun r => r.id ≠ i))
      (invalidate_product_cache true c i) := by
  intro k j e hmem r hm
  unfold invalidate_product_cache redisDel at hmem
  rw [if_pos rfl] at hmem
  have hkne : k ≠ cache_key i := by
    have := List.of_mem_filter hmem
    simpa using this
  obtain ⟨hk, hdb⟩ := hco k j e (List.mem_of_mem_filter hmem) r hm
  have hrne : r.id ≠ i := fun h => hkne (hk.trans (by rw [h]))
  exact ⟨hk, (get_product_by_id_filter_ne db hrne).trans hdb⟩

/-- A committed merged row keeps the row's identifier and realizes exactly
the row's column values. -/
theorem Row.commit_fields {r : Row} {q : Product} (h : r.commit = some q) :
    q.id = r.id ∧ some q.name = r.name ∧ some q.description = r.description
      ∧ some q.price = r.price ∧ some q.stock_quantity = r.stock_quantity := by
  cases r with
  | mk i n d pr s =>
      cases n <;> cases d <;> cases pr <;> cases s <;>
        simp [Row.commit] at h <;> simp [← h]

/-- After a (successful) invalidation for `i`, a lookup of `i` misses,
whatever the cache health at read time. -/
theorem lookup_after_invalidate (healthy : Bool) (c : Cache) (now : Nat)
    (i : String) :
    get_product_from_cache healthy (invalidate_product_cache true c i) now i
      = none := by
  cases healthy with
  | false => rfl
  | true =>
      unfold get_product_from_cache invalidate_product_cache
      rw [if_pos rfl, if_pos rfl, redisGet_redisDel_self]
      rfl

/-- C7: with no durable record for `id` (and, for Read, a cache coherent
with the store), Read, non-empty Update, and Delete all fail 404 with the
state unchanged; and after a Delete succeeds against a healthy cache, an
immediately following Read of the same identifier fails 404 for either
read-time cache health — even if a cache entry for `id` written before
the Delete would still be within its TTL (`now < e`). -/
theorem absent_identifier_not_found (ttl now : Nat) (st : St) (i : String)
    (u : ProductUpdate) :
    (CacheCoherent st.store st.cache → get_product_by_id st.store i = none →
      ∀ healthy, get_product_endpoint healthy ttl now st i
        = (.notFound, st, [.cacheGet (cache_key i), .dbGet i]))
    ∧ (get_product_by_id st.store i = none → u.hasSetField = true →
        ∀ healthy, update_product_endpoint healthy st i u
          = (.notFound, st, [.dbGet i]))
    ∧ (get_product_by_id st.store i = none →
        ∀ healthy, delete_product_endpoint healthy st i
          = (.notFound, st, [.dbGet i]))
    ∧ (∀ st' ev j e,
        delete_product_endpoint true st i = (.noContent, st', ev) →
        (cache_key i, j, e) ∈ st.cache → now < e →
        ∀ healthy, get_product_endpoint healthy ttl now st' i
          = (.notFound, st', [.cacheGet (cache_key i), .dbGet i])) := by
  refine ⟨?_, ?_, ?_, ?_⟩
  · intro hco hs healthy
    have hc : get_product_from_cache healthy st.cache now i = none := by
      cases healthy with
      | false => rfl
      | true =>
          cases hl : get_product_from_cache true st.cache now i with
          | none => rfl
          | some p =>
              obtain ⟨hdb, -⟩ := coherent_lookup_some hco hl
              rw [hs] at hdb
              cases hdb
    simp [get_product_endpoint, hc, hs]
  · intro hs hu healthy
    simp [update_product_endpoint, hu, hs]
  · intro hs healthy
    simp [delete_product_endpoint, hs]
  · intro st' ev j e hdel hmem ht healthy
    unfold delete_product_endpoint at hdel
    cases hfind : get_product_by_id st.store i with
    | none =>
        rw [hfind] at hdel
        simp at hdel
    | some p =>
        rw [hfind] at hdel
        simp only [Prod.mk.injEq] at hdel
        obtain ⟨-, hst, -⟩ := hdel
        have hpid : p.id = i := by
          have := List.find?_some hfind
          simpa using this
        have hc : get_product_from_cache healthy st'.cache now i = none := by
          rw [← hst]
          exact lookup_after_invalidate healthy st.cache now i
        have hs' : get_product_by_id st'.store i = none := by
          rw [← hst]
          show get_product_by_id (delete_product st.store p) i = none
          unfold delete_product
          rw [← hpid]
          exact get_product_by_id_filter_self st.store p.id
        simp [get_product_endpoint, hc, hs']

/-- C3: after a Create or an Update at `id` completes successfully against
a healthy cache, an immediately following Read of `id` — at any later
instant and under either cache health — returns exactly the record the
mutation returned, because the mutation invalidated the cache entry for
`id` before returning. -/
theorem post_write_read_consistency (ttl now' : Nat) (st : St)
    (newId i : String) (payload : ProductCreate) (u : ProductUpdate) :
    (∀ p st' ev,
      create_product_endpoint true st newId payload = (.ok p, st', ev) →
      ∀ healthy, (get_product_endpoint healthy ttl now' st' newId).1 = .ok p)
    ∧ (∀ q st' ev,
        update_product_endpoint true st i u = (.ok q, st', ev) →
        ∀ healthy, (get_product_endpoint healthy ttl now' st' i).1 = .ok q) := by
  constructor
  · intro p st' ev hcr healthy
    unfold create_product_endpoint at hcr
    cases hc : create_product st.store newId payload with
    | none =>
        rw [hc] at hcr
        simp at hcr
    | some pr =>
        rw [hc] at hcr
        simp only [Prod.mk.injEq, ApiResult.ok.injEq] at hcr
        obtain ⟨hp, hst, -⟩ := hcr
        unfold create_product at hc
        by_cases hex : (get_product_by_id st.store newId).isSome
        · rw [if_pos hex] at hc
          cases hc
        · rw [if_neg hex] at hc
          have hpr :
              pr = (⟨newId, payload.name, payload.description, payload.price,
                     payload.stock_quantity⟩, ⟨newId, payload.name,
                     payload.description, payload.price,
                     payload.stock_quantity⟩ :: st.store) := by
            cases hc
            rfl
          have hid : pr.1.id = newId := by rw [hpr]
          have hcache :
              get_product_from_cache healthy st'.cache now' newId = none := by
            rw [← hst, ← hid]
            exact lookup_after_invalidate healthy st.cache now' pr.1.id
          have hstore : get_product_by_id st'.store newId = some pr.1 := by
            rw [← hst, hpr]
            show get_product_by_id
              (⟨newId, payload.name, payload.description, payload.price,
                payload.stock_quantity⟩ :: st.store) newId = _
            unfold get_product_by_id
            rw [List.find?_cons_of_pos _ (by simp)]
          rw [← hp]
          simp [get_product_endpoint, hcache, hstore]
  · intro q st' ev hup healthy
    unfold update_product_endpoint at hup
    split at hup
    · simp at hup
    · split at hup
      · simp at hup
      · next p hfind =>
          split at hup
          · simp at hup
          · next q0 db' hupd =>
              simp only [Prod.mk.injEq, ApiResult.ok.injEq] at hup
              obtain ⟨hq, hst, -⟩ := hup
              have hpid : p.id = i := by
                have := List.find?_some hfind
                simpa using this
              unfold update_product at hupd
              cases hcom : (update_product_row p u).commit with
              | none =>
                  rw [hcom] at hupd
                  cases hupd
              | some q1 =>
                  rw [hcom] at hupd
                  simp only [Option.map_some', Option.some.injEq,
                             Prod.mk.injEq] at hupd
                  obtain ⟨hq1, hdb⟩ := hupd
                  have hq1id : q1.id = p.id := (Row.commit_fields hcom).1
                  have hcache :
                      get_product_from_cache healthy st'.cache now' i
                        = none := by
                    rw [← hst]
                    exact lookup_after_invalidate healthy st.cache now' i
                  have hstore : get_product_by_id st'.store i = some q0 := by
                    rw [← hst]
                    show get_product_by_id db' i = some q0
                    rw [← hdb, ← hq1, ← hpid]
                    exact get_product_by_id_dbReplace_self st.store p.id q1
                      hq1id (by rw [hpid, hfind]; rfl)
                  rw [← hq]
                  simp [get_product_endpoint, hcache, hstore]

/-- Witness for C7: a store holding only record "b", empty cache; Read,
Update and Delete of "a" all return 404 unchanged. -/
theorem absent_identifier_not_found_witness :
    get_product_endpoint true 3600 0 ⟨[pB], []⟩ "a"
        = (.notFound, ⟨[pB], []⟩, [.cacheGet (cache_key "a"), .dbGet "a"])
    ∧ update_product_endpoint true ⟨[pB], []⟩ "a"
        ⟨.set (some "Z"), .unset, .unset, .unset⟩
        = (.notFound, ⟨[pB], []⟩, [.dbGet "a"])
    ∧ delete_product_endpoint true ⟨[pB], []⟩ "a"
        = (.notFound, ⟨[pB], []⟩, [.dbGet "a"]) := by
  obtain ⟨h1, h2, h3, -⟩ := absent_identifier_not_found 3600 0 ⟨[pB], []⟩ "a"
    ⟨.set (some "Z"), .unset, .unset, .unset⟩
  exact ⟨h1 (coherent_nil _) rfl true, h2 rfl rfl true, h3 rfl true⟩

/-- Witness for C3, create case: create "a" into an empty system, then
read it back with a broken cache at a later instant. -/
theorem post_write_read_consistency_witness :
    (get_product_endpoint false 3600 1 ⟨[pA], []⟩ "a").1 = .ok pA := by
  have h := (post_write_read_consistency 3600 1 ⟨[], []⟩ "a" "a"
      ⟨"X", "widget", 10, 5⟩ ⟨.unset, .unset, .unset, .unset⟩).1 pA
      ⟨[pA], []⟩ [.dbInsert "a", .cacheDel (cache_key "a")] rfl false
  exact h

/-- C5: a successful partial Update applies only the set fields — every
field left unset in the payload keeps its pre-update value in the record
returned, the identifier is unchanged, and the returned record is exactly
the one persisted under `id`. -/
theorem partial_update_preserves_fields (healthy : Bool) (st : St)
    (i : String) (u : ProductUpdate) (p : Product)
    (hp : get_product_by_id st.store i = some p)
    (q : Product) (st' : St) (ev : List Event)
    (h : update_product_endpoint healthy st i u = (.ok q, st', ev)) :
    q.id = p.id ∧ p.id = i
    ∧ (u.name = .unset → q.name = p.name)
    ∧ (u.description = .unset → q.description = p.description)
    ∧ (u.price = .unset → q.price = p.price)
    ∧ (u.stock_quantity = .unset → q.stock_quantity = p.stock_quantity)
    ∧ get_product_by_id st'.store i = some q := by
  have hpid : p.id = i := by
    have := List.find?_some hp
    simpa using this
  unfold update_product_endpoint at h
  split at h
  · simp at h
  · split at h
    · simp at h
    · next p0 hfind =>
        have hp0 : p0 = p := by
          rw [hfind] at hp
          exact (Option.some.injEq ..).mp hp.symm |>.symm
        subst p0
        split at h
        · simp at h
        · next q0 db' hupd =>
            simp only [Prod.mk.injEq, ApiResult.ok.injEq] at h
            obtain ⟨hq, hst, -⟩ := h
            unfold update_product at hupd
            cases hcom : (update_product_row p u).commit with
            | none =>
                rw [hcom] at hupd
                cases hupd
            | some q1 =>
                rw [hcom] at hupd
                simp only [Option.map_some', Option.some.injEq,
                           Prod.mk.injEq] at hupd
                obtain ⟨hq1, hdb⟩ := hupd
                obtain ⟨hid, hn, hd, hpr, hs⟩ := Row.commit_fields hcom
                have hq1id : q1.id = p.id := hid
                have hqe : q1 = q := hq1.trans hq
                rw [← hqe]
                refine ⟨hq1id, hpid, ?_, ?_, ?_, ?_, ?_⟩
                · intro hun
                  have h2 : some q1.name = some p.name := by
                    rw [hn]
                    show applyField u.name (some p.name) = some p.name
                    rw [hun]
                    rfl
                  exact (Option.some.injEq ..).mp h2
                · intro hun
                  have h2 : some q1.description = some p.description := by
                    rw [hd]
                    show applyField u.description (some p.description)
                      = some p.description
                    rw [hun]
                    rfl
                  exact (Option.some.injEq ..).mp h2
                · intro hun
                  have h2 : some q1.price = some p.price := by
                    rw [hpr]
                    show applyField u.price (some p.price) = some p.price
                    rw [hun]
                    rfl
                  exact (Option.some.injEq ..).mp h2
                · intro hun
                  have h2 : some q1.stock_quantity = some p.stock_quantity := by
                    rw [hs]
                    show applyField u.stock_quantity (some p.stock_quantity)
                      = some p.stock_quantity
                    rw [hun]
                    rfl
                  exact (Option.some.injEq ..).mp h2
                · rw [← hst]
                  show get_product_by_id db' i = some q1
                  rw [← hdb, ← hpid]
                  exact get_product_by_id_dbReplace_self st.store p.id q1
                    hq1id (by rw [hpid, hp]; rfl)

/-- Witness for C5: updating only the price of a stored record leaves
name, description and stock at their pre-update values. -/
theorem partial_update_preserves_fields_witness :
    (⟨"a", "X", "widget", 12, 5⟩ : Product).name = pA.name
    ∧ (⟨"a", "X", "widget", 12, 5⟩ : Product).description = pA.description
    ∧ (⟨"a", "X", "widget", 12, 5⟩ : Product).stock_quantity
        = pA.stock_quantity := by
  have h := partial_update_preserves_fields true ⟨[pA], []⟩ "a"
      ⟨.unset, .unset, .set (some 12), .unset⟩ pA rfl
      ⟨"a", "X", "widget", 12, 5⟩ ⟨[⟨"a", "X", "widget", 12, 5⟩], []⟩
      [.dbGet "a", .dbCommit "a", .cacheDel (cache_key "a")] rfl
  exact ⟨h.2.2.1 rfl, h.2.2.2.1 rfl, h.2.2.2.2.2.1 rfl⟩

/-- C8: in every successful Update and Delete, the event trace is exactly
the straight-line sequence durable read, durable write commit, cache
invalidation — so the invalidation of the target identifier happens
strictly after the durable write commits, sequentially within the one
logical operation (the model executes one call at a time; nothing runs
concurrently with the commit). -/
theorem invalidate_after_persist_order (healthy : Bool) (st : St)
    (i : String) (u : ProductUpdate) :
    (∀ q st' ev, update_product_endpoint healthy st i u = (.ok q, st', ev) →
      ev = [.dbGet i, .dbCommit i, .cacheDel (cache_key i)])
    ∧ (∀ st' ev, delete_product_endpoint healthy st i = (.noContent, st', ev) →
        ev = [.dbGet i, .dbDelete i, .cacheDel (cache_key i)]) := by
  constructor
  · intro q st' ev h
    unfold update_product_endpoint at h
    split at h
    · simp at h
    · split at h
      · simp at h
      · split at h
        · simp at h
        · simp only [Prod.mk.injEq] at h
          exact h.2.2.symm
  · intro st' ev h
    unfold delete_product_endpoint at h
    split at h
    · simp at h
    · simp only [Prod.mk.injEq] at h
      exact h.2.2.symm

/-- Witness for C8: a concrete successful price update and a concrete
successful delete against a one-row store. -/
theorem invalidate_after_persist_order_witness :
    (update_product_endpoint true ⟨[pA], []⟩ "a"
        ⟨.unset, .unset, .set (some 12), .unset⟩).2.2
      = [.dbGet "a", .dbCommit "a", .cacheDel (cache_key "a")]
    ∧ (delete_product_endpoint true ⟨[pA], []⟩ "a").2.2
      = [.dbGet "a", .dbDelete "a", .cacheDel (cache_key "a")] := by
  obtain ⟨h1, h2⟩ := invalidate_after_persist_order true ⟨[pA], []⟩ "a"
    ⟨.unset, .unset, .set (some 12), .unset⟩
  exact ⟨h1 ⟨"a", "X", "widget", 12, 5⟩ ⟨[⟨"a", "X", "widget", 12, 5⟩], []⟩
    _ rfl, h2 ⟨[], []⟩ _ rfl⟩

/-- A merged row with any column assigned null cannot commit (every
column is `nullable=False`). -/
theorem Row.commit_none {r : Row}
    (h : r.name = none ∨ r.description = none ∨ r.price = none
      ∨ r.stock_quantity = none) :
    r.commit = none := by
  cases r with
  | mk i n d pr s =>
      cases n <;> cases d <;> cases pr <;> cases s <;>
        simp [Row.commit] <;> simp at h

/-- C10: a payload field explicitly set to null counts as present for the
empty-payload check (no 400 is raised), the merge assigns null to that
column instead of leaving it untouched, and the durable write is then
attempted — the trace of the Update against an existing record shows the
store read and the commit attempt (which fails on the non-nullable
column, so no invalidation follows). -/
theorem explicit_null_counts_as_present (healthy : Bool) (st : St)
    (i : String) (u : ProductUpdate) (p : Product)
    (hp : get_product_by_id st.store i = some p)
    (hnull : u.name = .set none ∨ u.description = .set none
      ∨ u.price = .set none ∨ u.stock_quantity = .set none) :
    u.hasSetField = true
    ∧ (u.name = .set none → (update_product_row p u).name = none)
    ∧ (u.description = .set none →
        (update_product_row p u).description = none)
    ∧ (u.price = .set none → (update_product_row p u).price = none)
    ∧ (u.stock_quantity = .set none →
        (update_product_row p u).stock_quantity = none)
    ∧ (update_product_endpoint healthy st i u).1 = .serverError
    ∧ (update_product_endpoint healthy st i u).2.2
        = [.dbGet i, .dbCommit i] := by
  have hset : u.hasSetField = true := by
    rcases hnull with h | h | h | h <;>
      simp [ProductUpdate.hasSetField, h, UpdateField.isSet]
  have hrow : (update_product_row p u).name = none
      ∨ (update_product_row p u).description = none
      ∨ (update_product_row p u).price = none
      ∨ (update_product_row p u).stock_quantity = none := by
    rcases hnull with h | h | h | h
    · exact Or.inl (by show applyField u.name _ = none; rw [h]; rfl)
    · exact Or.inr (Or.inl
        (by show applyField u.description _ = none; rw [h]; rfl))
    · exact Or.inr (Or.inr (Or.inl
        (by show applyField u.price _ = none; rw [h]; rfl)))
    · exact Or.inr (Or.inr (Or.inr
        (by show applyField u.stock_quantity _ = none; rw [h]; rfl)))
  have hcom : (update_product_row p u).commit = none := Row.commit_none hrow
  have hupd : update_product st.store p u = none := by
    unfold update_product
    rw [hcom]
    rfl
  have hend : update_product_endpoint healthy st i u
      = (.serverError, st, [.dbGet i, .dbCommit i]) := by
    unfold update_product_endpoint
    rw [if_neg (by rw [hset]; exact fun hf => Bool.noConfusion hf), hp]
    simp only [hupd]
  refine ⟨hset, ?_, ?_, ?_, ?_, by rw [hend], by rw [hend]⟩
  · intro h
    show applyField u.name _ = none
    rw [h]
    rfl
  · intro h
    show applyField u.description _ = none
    rw [h]
    rfl
  · intro h
    show applyField u.price _ = none
    rw [h]
    rfl
  · intro h
    show applyField u.stock_quantity _ = none
    rw [h]
    rfl

/-- Witness for C10: the payload whose only key is an explicit null name
against a store holding one record. -/
theorem explicit_null_counts_as_present_witness :
    (⟨.set none, .unset, .unset, .unset⟩ : ProductUpdate).hasSetField = true
    ∧ (update_product_row pA
        ⟨.set none, .unset, .unset, .unset⟩).name = none
    ∧ (update_product_endpoint true ⟨[pA], []⟩ "a"
        ⟨.set none, .unset, .unset, .unset⟩).1 = .serverError
    ∧ (update_product_endpoint true ⟨[pA], []⟩ "a"
        ⟨.set none, .unset, .unset, .unset⟩).2.2
        = [.dbGet "a", .dbCommit "a"] := by
  have h := explicit_null_counts_as_present true ⟨[pA], []⟩ "a"
      ⟨.set none, .unset, .unset, .unset⟩ pA rfl (Or.inl rfl)
  exact ⟨h.1, h.2.1 rfl, h.2.2.2.2.2.1, h.2.2.2.2.2.2⟩

/-- One step of the transparency argument: from a coherent healthy state
and any broken-cache state over the same store, one operation yields the
same outcome in both runs; the broken run's state is the healthy run's
store with its cache untouched; and the healthy run stays coherent. -/
theorem stepOp_cache_transparent (ttl : Nat) {db : Db} {c : Cache}
    (hco : CacheCoherent db c) (c' : Cache) (now : Nat) (op : Op) :
    (stepOp true ttl ⟨db, c⟩ now op).1 = (stepOp false ttl ⟨db, c'⟩ now op).1
    ∧ (stepOp false ttl ⟨db, c'⟩ now op).2.1
        = ⟨(stepOp true ttl ⟨db, c⟩ now op).2.1.store, c'⟩
    ∧ CacheCoherent (stepOp true ttl ⟨db, c⟩ now op).2.1.store
        (stepOp true ttl ⟨db, c⟩ now op).2.1.cache := by
  cases op with
  | read i =>
      cases hc : get_product_from_cache true c now i with
      | some p =>
          obtain ⟨hdb, hpi⟩ := coherent_lookup_some hco hc
          have h1 : stepOp true ttl ⟨db, c⟩ now (.read i)
              = (.ok p, ⟨db, c⟩, [.cacheGet (cache_key i)]) := by
            simp [stepOp, get_product_endpoint, hc]
          have h2 : stepOp false ttl ⟨db, c'⟩ now (.read i)
              = (.ok p, ⟨db, c'⟩,
                 [.cacheGet (cache_key i), .dbGet i,
                  .cacheSet (cache_key p.id)]) := by
            simp [stepOp, get_product_endpoint, get_product_from_cache,
                  set_product_in_cache, hdb]
          rw [h1, h2]
          exact ⟨rfl, rfl, hco⟩
      | none =>
          cases hdbf : get_product_by_id db i with
          | none =>
              have h1 : stepOp true ttl ⟨db, c⟩ now (.read i)
                  = (.notFound, ⟨db, c⟩,
                     [.cacheGet (cache_key i), .dbGet i]) := by
                simp [stepOp, get_product_endpoint, hc, hdbf]
              have h2 : stepOp false ttl ⟨db, c'⟩ now (.read i)
                  = (.notFound, ⟨db, c'⟩,
                     [.cacheGet (cache_key i), .dbGet i]) := by
                simp [stepOp, get_product_endpoint, get_product_from_cache,
                      hdbf]
              rw [h1, h2]
              exact ⟨rfl, rfl, hco⟩
          | some p =>
              have h1 : stepOp true ttl ⟨db, c⟩ now (.read i)
                  = (.ok p, ⟨db, set_product_in_cache true c now ttl p⟩,
                     [.cacheGet (cache_key i), .dbGet i,
                      .cacheSet (cache_key p.id)]) := by
                simp [stepOp, get_product_endpoint, hc, hdbf]
              have h2 : stepOp false ttl ⟨db, c'⟩ now (.read i)
                  = (.ok p, ⟨db, c'⟩,
                     [.cacheGet (cache_key i), .dbGet i,
                      .cacheSet (cache_key p.id)]) := by
                simp [stepOp, get_product_endpoint, get_product_from_cache,
                      set_product_in_cache, hdbf]
              rw [h1, h2]
              exact ⟨rfl, rfl, coherent_set hco true now ttl hdbf⟩
  | create newId payload =>
      cases hcr : create_product db newId payload with
      | none =>
          have h1 : stepOp true ttl ⟨db, c⟩ now (.create newId payload)
              = (.serverError, ⟨db, c⟩, [.dbInsert newId]) := by
            simp [stepOp, create_product_endpoint, hcr]
          have h2 : stepOp false ttl ⟨db, c'⟩ now (.create newId payload)
              = (.serverError, ⟨db, c'⟩, [.dbInsert newId]) := by
            simp [stepOp, create_product_endpoint, hcr]
          rw [h1, h2]
          exact ⟨rfl, rfl, hco⟩
      | some pr =>
          obtain ⟨p, db2⟩ := pr
          have h1 : stepOp true ttl ⟨db, c⟩ now (.create newId payload)
              = (.ok p, ⟨db2, invalidate_product_cache true c p.id⟩,
                 [.dbInsert newId, .cacheDel (cache_key p.id)]) := by
            simp [stepOp, create_product_endpoint, hcr]
          have h2 : stepOp false ttl ⟨db, c'⟩ now (.create newId payload)
              = (.ok p, ⟨db2, c'⟩,
                 [.dbInsert newId, .cacheDel (cache_key p.id)]) := by
            simp [stepOp, create_product_endpoint, invalidate_product_cache,
                  hcr]
          unfold create_product at hcr
          by_cases hex : (get_product_by_id db newId).isSome
          · rw [if_pos hex] at hcr
            cases hcr
          · rw [if_neg hex] at hcr
            simp only [Option.some.injEq, Prod.mk.injEq] at hcr
            obtain ⟨hpdef, hdb2⟩ := hcr
            subst hpdef
            have hnew : get_product_by_id db
                (⟨newId, payload.name, payload.description, payload.price,
                  payload.stock_quantity⟩ : Product).id = none :=
              Option.not_isSome_iff_eq_none.mp hex
            rw [h1, h2]
            refine ⟨rfl, rfl, ?_⟩
            show CacheCoherent db2 (invalidate_product_cache true c _)
            rw [← hdb2]
            exact coherent_invalidate (coherent_db_cons hco hnew) true _
  | update i u =>
      by_cases hsu : u.hasSetField = false
      · have h1 : stepOp true ttl ⟨db, c⟩ now (.update i u)
            = (.badRequest, ⟨db, c⟩, []) := by
          simp [stepOp, update_product_endpoint, hsu]
        have h2 : stepOp false ttl ⟨db, c'⟩ now (.update i u)
            = (.badRequest, ⟨db, c'⟩, []) := by
          simp [stepOp, update_product_endpoint, hsu]
        rw [h1, h2]
        exact ⟨rfl, rfl, hco⟩
      · cases hdbf : get_product_by_id db i with
        | none =>
            have h1 : stepOp true ttl ⟨db, c⟩ now (.update i u)
                = (.notFound, ⟨db, c⟩, [.dbGet i]) := by
              simp [stepOp, update_product_endpoint, hsu, hdbf]
            have h2 : stepOp false ttl ⟨db, c'⟩ now (.update i u)
                = (.notFound, ⟨db, c'⟩, [.dbGet i]) := by
              simp [stepOp, update_product_endpoint, hsu, hdbf]
            rw [h1, h2]
            exact ⟨rfl, rfl, hco⟩
        | some p =>
            cases hupd : update_product db p u with
            | none =>
                have h1 : stepOp true ttl ⟨db, c⟩ now (.update i u)
                    = (.serverError, ⟨db, c⟩,
                       [.dbGet i, .dbCommit i]) := by
                  simp [stepOp, update_product_endpoint, hsu, hdbf, hupd]
                have h2 : stepOp false ttl ⟨db, c'⟩ now (.update i u)
                    = (.serverError, ⟨db, c'⟩,
                       [.dbGet i, .dbCommit i]) := by
                  simp [stepOp, update_product_endpoint, hsu, hdbf, hupd]
                rw [h1, h2]
                exact ⟨rfl, rfl, hco⟩
            | some qd =>
                obtain ⟨q, db2⟩ := qd
                have h1 : stepOp true ttl ⟨db, c⟩ now (.update i u)
                    = (.ok q, ⟨db2, invalidate_product_cache true c i⟩,
                       [.dbGet i, .dbCommit i, .cacheDel (cache_key i)]) := by
                  simp [stepOp, update_product_endpoint, hsu, hdbf, hupd]
                have h2 : stepOp false ttl ⟨db, c'⟩ now (.update i u)
                    = (.ok q, ⟨db2, c'⟩,
                       [.dbGet i, .dbCommit i, .cacheDel (cache_key i)]) := by
                  simp [stepOp, update_product_endpoint,
                        invalidate_product_cache, hsu, hdbf, hupd]
                have hpid : p.id = i := by
                  have := List.find?_some hdbf
                  simpa using this
                unfold update_product at hupd
                cases hcom : (update_product_row p u).commit with
                | none =>
                    rw [hcom] at hupd
                    cases hupd
                | some q1 =>
                    rw [hcom] at hupd
                    simp only [Option.map_some', Option.some.injEq,
                               Prod.mk.injEq] at hupd
                    obtain ⟨hq1, hdb2⟩ := hupd
                    rw [h1, h2]
                    refine ⟨rfl, rfl, ?_⟩
                    show CacheCoherent db2 (invalidate_product_cache true c i)
                    rw [← hdb2, ← hpid]
                    exact coherent_update hco (Row.commit_fields hcom).1
  | delete i =>
      cases hdbf : get_product_by_id db i with
      | none =>
          have h1 : stepOp true ttl ⟨db, c⟩ now (.delete i)
              = (.notFound, ⟨db, c⟩, [.dbGet i]) := by
            simp [stepOp, delete_product_endpoint, hdbf]
          have h2 : stepOp false ttl ⟨db, c'⟩ now (.delete i)
              = (.notFound, ⟨db, c'⟩, [.dbGet i]) := by
            simp [stepOp, delete_product_endpoint, hdbf]
          rw [h1, h2]
          exact ⟨rfl, rfl, hco⟩
      | some p =>
          have h1 : stepOp true ttl ⟨db, c⟩ now (.delete i)
              = (.noContent,
                 ⟨delete_product db p, invalidate_product_cache true c i⟩,
                 [.dbGet i, .dbDelete i, .cacheDel (cache_key i)]) := by
            simp [stepOp, delete_product_endpoint, hdbf]
          have h2 : stepOp false ttl ⟨db, c'⟩ now (.delete i)
              = (.noContent, ⟨delete_product db p, c'⟩,
                 [.dbGet i, .dbDelete i, .cacheDel (cache_key i)]) := by
            simp [stepOp, delete_product_endpoint, invalidate_product_cache,
                  hdbf]
          have hpid : p.id = i := by
            have := List.find?_some hdbf
            simpa using this
          rw [h1, h2]
          refine ⟨rfl, rfl, ?_⟩
          show CacheCoherent (delete_product db p) _
          unfold delete_product
          rw [hpid]
          exact coherent_delete hco i

/-- Transparency extended over a whole operation sequence, generalized to
any coherent healthy cache and any broken-run cache content. -/
theorem runOps_cache_transparent (ttl : Nat) (ops : List (Nat × Op)) :
    ∀ (db : Db) (c c' : Cache), CacheCoherent db c →
      (runOps true ttl ⟨db, c⟩ ops).1 = (runOps false ttl ⟨db, c'⟩ ops).1 := by
  induction ops with
  | nil =>
      intro db c c' hco
      rfl
  | cons top rest ih =>
      intro db c c' hco
      obtain ⟨now, op⟩ := top
      obtain ⟨hres, hbro, hco'⟩ := stepOp_cache_transparent ttl hco c' now op
      have htail := ih (stepOp true ttl ⟨db, c⟩ now op).2.1.store
        (stepOp true ttl ⟨db, c⟩ now op).2.1.cache c' hco'
      simp only [runOps]
      rw [hres, hbro]
      exact congrArg₂ List.cons rfl htail

/-- C2: cache transparency. For any sequence of timed operations started
from the same durable store and a cold cache, running with a cache store
whose every call errors yields, operation by operation, exactly the same
outcome — same success/failure and same returned record content — as
running with a healthy cache store. -/
theorem cache_transparency (ttl : Nat) (db : Db) (ops : List (Nat × Op)) :
    (runOps true ttl ⟨db, []⟩ ops).1 = (runOps false ttl ⟨db, []⟩ ops).1 :=
  runOps_cache_transparent ttl ops db [] [] (coherent_nil db)
